import Mathlib

/-!
Shallow embedding of the ForHire acquisition/enrichment pipeline.

Sources embedded here:
- the ingestion gateway and read interface (service exporting
  addJobsToSystem / getJobs, file src/unnamed/part_002);
- the enrichment worker (src/src/services/jobEnricherService.js);
- the crawl scheduler (extension popup, second half of
  src/migrate_add_easy_apply.js);
- the LinkedIn field extractor (content script, src/unnamed/part_001).

Conventions: JavaScript Date values are modelled as Nat millisecond
timestamps; the database jobs table is a List of rows in insertion order
(SELECT ... ORDER BY re-sorts at read time exactly as the SQL does);
nullable columns are Option String; a thrown/caught exception is modelled
by an explicit failure schedule or an Except result.
-/

namespace ForHire

/-- Retention window added to addedAt to obtain expiresAt.  The source uses
JavaScript setMonth(+1) (one calendar month); the exact length is
irrelevant to every claim, so one month is fixed here as 31 days of
milliseconds. -/
def RETENTION_MS : Nat := 2678400000

/-- JavaScript truthiness default a la job.title || defaultValue: an absent
(undefined) or empty-string field falls back to the default, since the
empty string is falsy in JavaScript. -/
def jsOr (v : Option String) (d : String) : String :=
  match v with
  | some s => if s = "" then d else s
  | none => d

/-- A loosely-typed job record as handed to the ingestion gateway
(RawJobRecord of the spec): every field except id may be absent. -/
structure RawJobRecord where
  id : String
  title : Option String := none
  company : Option String := none
  location : Option String := none
  type : Option String := none
  salary : Option String := none
  posted : Option String := none
  description : Option String := none
  url : Option String := none
  source : Option String := none
deriving DecidableEq, Repr

/-- A row of the jobs table (StoredJob of the spec).  description is the
nullable column later mutated by the enrichment worker. -/
structure StoredJob where
  id : String
  title : String
  company : String
  location : String
  type : String
  salary : String
  posted : String
  description : Option String
  url : String
  source : String
  addedAt : Nat
  expiresAt : Nat
deriving DecidableEq, Repr

/-- The row built by the INSERT statement of addJobsToSystem, with the
field defaults applied exactly as in the source (job.title || 'Unknown
Title', etc.).  todayStr stands for new Date().toLocaleDateString(), the
default of the posted_date column. -/
def mkStoredJob (job : RawJobRecord) (addedAt expiresAt : Nat) (todayStr : String) : StoredJob :=
  { id := job.id
    title := jsOr job.title "Unknown Title"
    company := jsOr job.company "Unknown Company"
    location := jsOr job.location "Remote"
    type := jsOr job.type "Full-time"
    salary := jsOr job.salary "Not listed"
    posted := jsOr job.posted todayStr
    description := some (jsOr job.description "")
    url := jsOr job.url ""
    source := jsOr job.source "External"
    addedAt := addedAt
    expiresAt := expiresAt }

/-- The record loop of addJobsToSystem.  failsAt models the storage layer:
failsAt k means connection.execute throws while processing the k-th
record of the batch.  Because the source wraps the WHOLE loop in one
try/catch, a failure stops the loop: the count accumulated so far and the
rows inserted so far are kept, the error is logged, and addedCount is
returned. -/
def ingestLoop (failsAt : Nat → Bool) (now : Nat) (todayStr : String) :
    Nat → List RawJobRecord → Nat → List StoredJob → Nat × List StoredJob
  | _, [], addedCount, store => (addedCount, store)
  | k, job :: rest, addedCount, store =>
    if failsAt k then
      (addedCount, store)
    else if store.any (fun s => s.id = job.id) then
      ingestLoop failsAt now todayStr (k + 1) rest addedCount store
    else
      ingestLoop failsAt now todayStr (k + 1) rest (addedCount + 1)
        (store ++ [mkStoredJob job now (now + RETENTION_MS) todayStr])

/-- addJobsToSystem under an explicit storage-failure schedule.  The
existence check is SELECT id FROM jobs WHERE id = ?; a new record is
INSERTed with added_at = now and expires_at = now + one month (the source
computes expiresAt from the same clock reading it uses for addedAt). -/
def addJobsToSystemF (failsAt : Nat → Bool) (newJobs : List RawJobRecord)
    (store : List StoredJob) (now : Nat) (todayStr : String) : Nat × List StoredJob :=
  if newJobs.isEmpty then (0, store)
  else ingestLoop failsAt now todayStr 0 newJobs 0 store

/-- addJobsToSystem on a run where the storage layer succeeds on every
record (the failure-free instance of addJobsToSystemF). -/
def addJobsToSystem (newJobs : List RawJobRecord) (store : List StoredJob)
    (now : Nat) (todayStr : String) : Nat × List StoredJob :=
  addJobsToSystemF (fun _ => false) newJobs store now todayStr

/-- Greedy character-class helper: does one list start with the other
(element-wise)?  Used for the LIKE '%term%' translation. -/
def listStarts : List Char → List Char → Bool
  | [], _ => true
  | _ :: _, [] => false
  | a :: as, b :: bs => a = b && listStarts as bs

/-- Substring occurrence test, the meaning of SQL col LIKE '%term%'. -/
def listContains (needle : List Char) : List Char → Bool
  | [] => needle.isEmpty
  | c :: rest => listStarts needle (c :: rest) || listContains needle rest

/-- col LIKE '%term%' on a non-null column. -/
def sqlLike (col term : String) : Bool :=
  listContains term.data col.data

/-- The optional filters accepted by getJobs. -/
structure JobFilters where
  search : Option String := none
  location : Option String := none
deriving Repr

/-- One row satisfies the WHERE clause built by getJobs: always
expires_at > NOW(), plus the optional conjunctive search and location
filters.  A NULL description makes the description LIKE comparison
unknown, so only the title/company disjuncts can admit the row then. -/
def getJobsWhere (filters : JobFilters) (now : Nat) (j : StoredJob) : Bool :=
  decide (now < j.expiresAt) &&
  (match filters.search with
   | some s =>
     if s.trim = "" then true
     else
       sqlLike j.title s || sqlLike j.company s ||
         (match j.description with
          | some d => sqlLike d s
          | none => false)
   | none => true) &&
  (match filters.location with
   | some s =>
     if s.trim = "" then true
     else sqlLike j.location s
   | none => true)

/-- Insert one row into a list kept in descending added_at order. -/
def insertByAddedDesc (j : StoredJob) : List StoredJob → List StoredJob
  | [] => [j]
  | x :: xs => if x.addedAt ≤ j.addedAt then j :: x :: xs else x :: insertByAddedDesc j xs

/-- ORDER BY added_at DESC: the rows sorted by descending added_at (the
SQL specifies no tie-break; this model uses a deterministic insertion
sort). -/
def sortByAddedDesc : List StoredJob → List StoredJob
  | [] => []
  | x :: xs => insertByAddedDesc x (sortByAddedDesc xs)

/-- getJobs: SELECT * FROM jobs WHERE expires_at > NOW() [AND filters]
ORDER BY added_at DESC.  A pure read: the store itself is untouched (the
SQL is a SELECT; expired rows stay in the table). -/
def getJobs (store : List StoredJob) (now : Nat) (filters : JobFilters) : List StoredJob :=
  sortByAddedDesc (store.filter (getJobsWhere filters now))

/-! Enrichment worker (src/src/services/jobEnricherService.js). -/

/-- BATCH_SIZE = 5: jobs processed concurrently per batch. -/
def BATCH_SIZE : Nat := 5

/-- MAX_RETRIES = 2: retries after the first attempt of a fetch. -/
def MAX_RETRIES : Nat := 2

/-- Outcome of one attempt of fetchJobDescription's body for one job:
either the source-specific extractor returned a description (possibly
null), or some step threw (navigation timeout, page error, ...). -/
inductive FetchAttempt where
  | ok (desc : Option String)
  | err
deriving DecidableEq, Repr

/-- The bounded retry recursion of fetchJobDescription, written as the
equivalent loop over the number of retries still allowed
(retriesLeft = MAX_RETRIES - retryCount), which is the structural measure
of the source's self-invocation.  att gives the outcome of the attempt at
each retryCount.  Returns the final description (null when retries are
exhausted: the job's row is then never written) together with the number
of attempts performed.  An attempt succeeds only when the description is
non-null and longer than 50 characters; a short or null description, and
any thrown error, lead to a retry while retryCount < MAX_RETRIES. -/
def fetchGo (att : Nat → FetchAttempt) : Nat → Nat → Option String × Nat
  | retryCount, 0 =>
    match att retryCount with
    | .ok (some d) => if 50 < d.length then (some d, 1) else (none, 1)
    | .ok none => (none, 1)
    | .err => (none, 1)
  | retryCount, retriesLeft + 1 =>
    match att retryCount with
    | .ok (some d) =>
      if 50 < d.length then (some d, 1)
      else
        let r := fetchGo att (retryCount + 1) retriesLeft
        (r.1, r.2 + 1)
    | .ok none =>
      let r := fetchGo att (retryCount + 1) retriesLeft
      (r.1, r.2 + 1)
    | .err =>
      let r := fetchGo att (retryCount + 1) retriesLeft
      (r.1, r.2 + 1)

/-- fetchJobDescription(browser, job, retryCount): the recursion above
entered at a given retryCount. -/
def fetchJobDescription (att : Nat → FetchAttempt) (retryCount : Nat) : Option String × Nat :=
  fetchGo att retryCount (MAX_RETRIES - retryCount)

/-- The enrichment candidate predicate of getJobsNeedingEnrichment's WHERE
clause: a usable url, and a description that is NULL, empty, the known
placeholder, a scraper placeholder (LIKE 'Job scraped from%'), or shorter
than 100 characters. -/
def needsEnrichment (j : StoredJob) : Bool :=
  (j.url ≠ "" && j.url ≠ "#") &&
  (match j.description with
   | none => true
   | some d =>
     d = "" || d = "View posting for details" ||
       listStarts "Job scraped from".data d.data || decide (d.length < 100))

/-- getJobsNeedingEnrichment on a reachable store: the WHERE filter,
ORDER BY added_at DESC, LIMIT 100. -/
def getJobsNeedingEnrichment (store : List StoredJob) : List StoredJob :=
  (sortByAddedDesc (store.filter needsEnrichment)).take 100

/-- UPDATE jobs SET description = ? WHERE id = ?. -/
def updateJobDescription (store : List StoredJob) (jobId desc : String) : List StoredJob :=
  store.map (fun j => if j.id = jobId then { j with description := some desc } else j)

/-- The per-batch result loop of enrichJobDescriptions: for each job of
the batch, a fulfilled fetch with a non-null value is written back and
counted enriched, anything else is counted failed.  fetchRes j is the
settled value of fetchJobDescription for job j (the function never
rejects: exhausted retries yield null).  updateJobDescription succeeds in
this failure-free storage model. -/
def processJobs (fetchRes : StoredJob → Option String) :
    List StoredJob → List StoredJob → Nat → Nat → Nat × Nat × List StoredJob
  | [], store, enrichedCount, failedCount => (enrichedCount, failedCount, store)
  | job :: rest, store, enrichedCount, failedCount =>
    match fetchRes job with
    | some d =>
      processJobs fetchRes rest (updateJobDescription store job.id d)
        (enrichedCount + 1) failedCount
    | none =>
      processJobs fetchRes rest store enrichedCount (failedCount + 1)

/-- One iteration artifact of the batch loop: a batch issued (processed
concurrently), or the 5-second cool-down await between batches. -/
inductive BatchEvent where
  | run (batch : List StoredJob)
  | coolDown
deriving DecidableEq, Repr

/-- The batch loop of enrichJobDescriptions as the trace of its
iterations: batch = jobs.slice(i, i + BATCH_SIZE), and the cool-down wait
runs only when i + BATCH_SIZE < jobs.length, i.e. only when a further
batch follows.  fuel bounds the number of iterations; every call sites it
at the list length, which the loop can never exhaust. -/
def batchScheduleGo : Nat → List StoredJob → List BatchEvent
  | _, [] => []
  | 0, _ :: _ => []
  | fuel + 1, j :: rest =>
    let remaining := j :: rest
    if remaining.length ≤ BATCH_SIZE then [.run (remaining.take BATCH_SIZE)]
    else
      .run (remaining.take BATCH_SIZE) :: .coolDown ::
        batchScheduleGo fuel (remaining.drop BATCH_SIZE)

/-- The sequence of batches and cool-downs issued for a candidate list. -/
def batchSchedule (jobs : List StoredJob) : List BatchEvent :=
  batchScheduleGo jobs.length jobs

/-- Replay of the batch loop over its trace: each issued batch goes
through the result loop; cool-downs change nothing but time. -/
def runBatches (fetchRes : StoredJob → Option String) :
    List BatchEvent → List StoredJob → Nat → Nat → Nat × Nat × List StoredJob
  | [], store, enrichedCount, failedCount => (enrichedCount, failedCount, store)
  | .coolDown :: evs, store, enrichedCount, failedCount =>
    runBatches fetchRes evs store enrichedCount failedCount
  | .run batch :: evs, store, enrichedCount, failedCount =>
    match processJobs fetchRes batch store enrichedCount failedCount with
    | (e, f, store') => runBatches fetchRes evs store' e f

/-- The {total, enriched, failed} summary returned by a run. -/
structure EnrichSummary where
  total : Nat
  enriched : Nat
  failed : Nat
deriving DecidableEq, Repr

/-- The settled fetch value for one job: fetchJobDescription entered at
retryCount 0, with the job's per-attempt outcomes looked up by job id. -/
def fetchForJob (att : String → Nat → FetchAttempt) (j : StoredJob) : Option String :=
  (fetchJobDescription (att j.id) 0).1

/-- enrichJobDescriptions.  storeFail models the database being
unreachable: getJobsNeedingEnrichment CATCHES that error itself and
returns an empty list, so the run proceeds with zero candidates.
launchFail models puppeteer.launch throwing: that happens after the
zero-candidate early return and is NOT caught, so it escapes to the
caller (.error).  Otherwise the batches run to completion and the store
is updated through the result loops. -/
def enrichJobDescriptionsRun (storeFail launchFail : Bool)
    (att : String → Nat → FetchAttempt) (store : List StoredJob) :
    Except Unit (EnrichSummary × List StoredJob) :=
  let jobs := if storeFail then [] else getJobsNeedingEnrichment store
  if jobs.isEmpty then .ok (⟨0, 0, 0⟩, store)
  else if launchFail then .error ()
  else
    match runBatches (fetchForJob att) (batchSchedule jobs) store 0 0 with
    | (e, f, store') => .ok (⟨jobs.length, e, f⟩, store')

/-! Crawl scheduler (extension popup: scrapeNextLocation /
scrapeNextKeyword / stop button handler).  The event-driven control flow
is modelled as a small-step machine: each tick performs the code that
runs between two suspension points (a navigation/settle timer or the
inter-search delay timer), and a stop event is the stop-button click
handler, which can run at any suspension point because the page is
single-threaded. -/

/-- Where the scheduler's control currently is.
loc: about to run scrapeNextLocation; kw: about to run scrapeNextKeyword;
settle: the navigation of the current (location, keyword) search has been
issued and the 5-second settle timer is pending (its callback re-checks
isRunning BEFORE scraping); delay: the page was scraped and the
inter-search delay timer is pending; idle: the callback chain has ended
(complete, or returned after a stop). -/
inductive CrawlPhase where
  | loc
  | kw
  | settle
  | delay
  | idle
deriving DecidableEq, Repr

/-- The fixed inputs of one crawl: selectedLocations (their display
names), config.keywords, and the jobs the content script returns for the
search at a given (locationIndex, keywordIndex). -/
structure CrawlEnv where
  locations : List String
  keywords : List String
  results : Nat → Nat → List String

/-- The popup's ambient mutable state, plus the trace of searches issued
(visited records the (location, keyword) label at the moment the
navigation for that search is issued). -/
structure CrawlState where
  isRunning : Bool
  currentLocationIndex : Nat
  currentKeywordIndex : Nat
  allJobs : List String
  visited : List (String × String)
  phase : CrawlPhase
deriving Repr

/-- State set by the start-button handler just before the first
scrapeNextLocation call. -/
def startState : CrawlState :=
  { isRunning := true
    currentLocationIndex := 0
    currentKeywordIndex := 0
    allJobs := []
    visited := []
    phase := .loc }

/-- One tick of the scheduler: the code between two suspension points.
loc: scrapeNextLocation finishes the crawl (isRunning := false) when
stopped or out of locations, else resets currentKeywordIndex and calls
scrapeNextKeyword.  kw: scrapeNextKeyword returns at once when stopped,
advances to the next location when out of keywords, else builds the
search URL and navigates (the search is issued: recorded in visited) and
arms the settle timer.  settle: the timer callback returns at once when
stopped — the already-issued search is NOT scraped — else scrapes the
page, appends the results to allJobs, increments currentKeywordIndex and
arms the inter-search delay.  delay: the delay callback re-enters
scrapeNextKeyword only while isRunning. -/
def stepCrawl (env : CrawlEnv) (s : CrawlState) : CrawlState :=
  match s.phase with
  | .idle => s
  | .loc =>
    if !s.isRunning || env.locations.length ≤ s.currentLocationIndex then
      { s with isRunning := false, phase := .idle }
    else
      { s with currentKeywordIndex := 0, phase := .kw }
  | .kw =>
    if !s.isRunning then { s with phase := .idle }
    else if env.keywords.length ≤ s.currentKeywordIndex then
      { s with currentLocationIndex := s.currentLocationIndex + 1, phase := .loc }
    else
      { s with
          visited := s.visited ++
            [(env.locations.getD s.currentLocationIndex "",
              env.keywords.getD s.currentKeywordIndex "")]
          phase := .settle }
  | .settle =>
    if !s.isRunning then { s with phase := .idle }
    else
      { s with
          allJobs := s.allJobs ++ env.results s.currentLocationIndex s.currentKeywordIndex
          currentKeywordIndex := s.currentKeywordIndex + 1
          phase := .delay }
  | .delay =>
    if !s.isRunning then { s with phase := .idle }
    else { s with phase := .kw }

/-- The stop-button click handler: sets isRunning := false and leaves
everything else (indices, collected jobs) in place; the collected jobs
stay available to the copy/upload buttons. -/
def stopCrawl (s : CrawlState) : CrawlState :=
  { s with isRunning := false }

/-- An external occurrence the scheduler reacts to: a scheduler tick, or
a stop-button click. -/
inductive CrawlEv where
  | tick
  | stop
deriving DecidableEq, Repr

/-- Run the scheduler under a sequence of occurrences. -/
def evolveCrawl (env : CrawlEnv) : CrawlState → List CrawlEv → CrawlState
  | s, [] => s
  | s, .tick :: evs => evolveCrawl env (stepCrawl env s) evs
  | s, .stop :: evs => evolveCrawl env (stopCrawl s) evs

/-- Run n uninterrupted ticks (no stop clicks). -/
def runTicks (env : CrawlEnv) (s : CrawlState) : Nat → CrawlState
  | 0 => s
  | n + 1 => runTicks env (stepCrawl env s) n

/-! Field extractor (content script scrapeLinkedIn, src/unnamed/part_001). -/

/-- The job-card cascade: jobCards = document.querySelectorAll(selector)
for each selector in order, breaking at the first selector that yields at
least one card; if every selector yields none the result is the empty
card list.  qAll abstracts querySelectorAll on the current page. -/
def selectJobCards {κ : Type} (qAll : String → List κ) : List String → List κ
  | [] => []
  | sel :: rest =>
    let jobCards := qAll sel
    if 0 < jobCards.length then jobCards else selectJobCards qAll rest

/-- The per-field cascade (title/company/location loops): walk the
ordered selector list and break at the first selector whose
card.querySelector(selector) is non-null; its value is used and every
later selector is ignored.  q abstracts querySelector on the current
card. -/
def firstSelectorMatch {α : Type} (q : String → Option α) : List String → Option α
  | [] => none
  | sel :: rest =>
    match q sel with
    | some v => some v
    | none => firstSelectorMatch q rest

/-! Salary extraction.  The source applies the JavaScript regex
dollar digits [.,]? digits* [KkMm]? (\/yr)? optionally followed by
whitespace* - whitespace* and a second such amount, to various text
nodes; the first (leftmost) match wins.  The regex is deterministic under
greedy matching (every piece after a greedy repetition is optional), so a
straight greedy parser reproduces the JavaScript engine's behaviour. -/

/-- JavaScript \d. -/
def isDigitChar (c : Char) : Bool := decide ('0' ≤ c) && decide (c ≤ '9')

/-- JavaScript \s, restricted to the ASCII whitespace that can occur in
the scraped card texts. -/
def isSpaceChar (c : Char) : Bool :=
  c = ' ' || c = '\t' || c = '\n' || c = '\r'

/-- Greedy match of one money amount, \$\d+[.,]?\d*[KkMm]?(\/yr)?:
returns the consumed characters and the remainder. -/
def matchMoney : List Char → Option (List Char × List Char)
  | '$' :: rest =>
    let ds := rest.takeWhile isDigitChar
    let r1 := rest.dropWhile isDigitChar
    if ds.isEmpty then none
    else
      let (p, r2) :=
        match r1 with
        | c :: t => if c = '.' || c = ',' then ([c], t) else (([] : List Char), r1)
        | [] => ([], r1)
      let ds2 := r2.takeWhile isDigitChar
      let r3 := r2.dropWhile isDigitChar
      let (k, r4) :=
        match r3 with
        | c :: t =>
          if c = 'K' || c = 'k' || c = 'M' || c = 'm' then ([c], t)
          else (([] : List Char), r3)
        | [] => ([], r3)
      let (yr, r5) :=
        match r4 with
        | '/' :: 'y' :: 'r' :: t => (['/', 'y', 'r'], t)
        | _ => ([], r4)
      some ('$' :: ds ++ p ++ ds2 ++ k ++ yr, r5)
  | _ => none

/-- Greedy match of the full salary pattern at the head of the input: one
amount, optionally \s*-\s* and a second amount. -/
def matchSalaryAt (cs : List Char) : Option (List Char × List Char) :=
  match matchMoney cs with
  | none => none
  | some (m1, r) =>
    let sp1 := r.takeWhile isSpaceChar
    let r1 := r.dropWhile isSpaceChar
    match r1 with
    | '-' :: r2 =>
      let sp2 := r2.takeWhile isSpaceChar
      let r3 := r2.dropWhile isSpaceChar
      match matchMoney r3 with
      | some (m2, r4) => some (m1 ++ sp1 ++ '-' :: sp2 ++ m2, r4)
      | none => some (m1, r)
    | _ => some (m1, r)

/-- text.match(salaryRegex): scan start positions left to right and
return the first match (match[0]), as the JavaScript engine does. -/
def salaryMatch : List Char → Option (List Char)
  | [] => (matchSalaryAt []).map (·.1)
  | c :: rest =>
    match matchSalaryAt (c :: rest) with
    | some (m, _) => some m
    | none => salaryMatch rest

/-- String front for salaryMatch. -/
def salaryMatchStr (text : String) : Option String :=
  (salaryMatch text.data).map List.asString

/-- innerText.trim(). -/
def trimText (s : String) : String :=
  (((s.data.dropWhile isSpaceChar).reverse.dropWhile isSpaceChar).reverse).asString

/-- The salary cascade of scrapeLinkedIn.  Tier 1: the
artdeco-entity-lockup metadata section, whose matched text (match[0]) is
taken directly.  Tier 2: all span[dir=ltr] texts — the FIRST span whose
text matches anywhere keeps its WHOLE trimmed text.  Tier 3: the metadata
list items, same way.  Finally, whenever a salary was found, the same
regex is re-applied to it and match[0] replaces it, stripping trailing
benefits/separator text. -/
def linkedInSalary (metadataSection : Option String) (ltrSpans : List String)
    (metadataItems : List String) : String :=
  let salary₀ : String :=
    match metadataSection with
    | some sec =>
      match salaryMatchStr (trimText sec) with
      | some m => m
      | none => "Not listed"
    | none => "Not listed"
  let salary₁ : String :=
    if salary₀ = "Not listed" then
      match ltrSpans.find? (fun t => (salaryMatchStr (trimText t)).isSome) with
      | some t => trimText t
      | none => "Not listed"
    else salary₀
  let salary₂ : String :=
    if salary₁ = "Not listed" then
      match metadataItems.find? (fun t => (salaryMatchStr (trimText t)).isSome) with
      | some t => trimText t
      | none => "Not listed"
    else salary₁
  if salary₂ = "Not listed" then salary₂
  else
    match salaryMatchStr salary₂ with
    | some m => m
    | none => salary₂

/-! Theorems.  First two facts about the read-side sort: sorting by
added_at is a permutation-style operation and changes membership in no
way. -/

/-- Membership through ordered insertion. -/
theorem mem_insertByAddedDesc {a j : StoredJob} :
    ∀ {l : List StoredJob}, a ∈ insertByAddedDesc j l ↔ a = j ∨ a ∈ l := by
  intro l
  induction l with
  | nil => simp [insertByAddedDesc]
  | cons x xs ih =>
    by_cases h : x.addedAt ≤ j.addedAt
    · simp [insertByAddedDesc, h]
    · simp only [insertByAddedDesc, h, if_false, List.mem_cons, ih]
      tauto

/-- Membership through the added_at sort. -/
theorem mem_sortByAddedDesc {a : StoredJob} :
    ∀ {l : List StoredJob}, a ∈ sortByAddedDesc l ↔ a ∈ l := by
  intro l
  induction l with
  | nil => simp [sortByAddedDesc]
  | cons x xs ih =>
    simp [sortByAddedDesc, mem_insertByAddedDesc, ih]

/-! The ingestion gateway. -/

/-- On a failure-free run over fresh records with pairwise-distinct ids,
the ingest loop inserts every record, in order, at the end of the
store. -/
theorem ingestLoop_fresh (now : Nat) (todayStr : String) :
    ∀ (R : List RawJobRecord) (k cnt : Nat) (store : List StoredJob),
    (R.map (fun r => r.id)).Nodup →
    (∀ r ∈ R, ∀ s ∈ store, s.id ≠ r.id) →
    ingestLoop (fun _ => false) now todayStr k R cnt store =
      (cnt + R.length,
        store ++ R.map (fun r => mkStoredJob r now (now + RETENTION_MS) todayStr)) := by
  intro R
  induction R with
  | nil => intro k cnt store _ _; simp [ingestLoop]
  | cons r rest ih =>
    intro k cnt store hnodup hfresh
    have hany : store.any (fun s => s.id = r.id) = false := by
      rw [Bool.eq_false_iff]
      intro hcontra
      obtain ⟨s, hs, heq⟩ := List.any_eq_true.mp hcontra
      exact hfresh r (List.mem_cons_self r rest) s hs (by simpa using heq)
    rw [List.map_cons, List.nodup_cons] at hnodup
    have hrest :
        ∀ r' ∈ rest, ∀ s ∈ store ++ [mkStoredJob r now (now + RETENTION_MS) todayStr],
          s.id ≠ r'.id := by
      intro r' hr' s hs
      rcases List.mem_append.mp hs with hsold | hsnew
      · exact hfresh r' (List.mem_cons_of_mem r hr') s hsold
      · have hs' : s = mkStoredJob r now (now + RETENTION_MS) todayStr := by simpa using hsnew
        subst hs'
        intro hid
        have hid' : r.id = r'.id := hid
        exact hnodup.1 (hid' ▸ List.mem_map_of_mem (fun r'' => r''.id) hr')
    have step := ih (k + 1) (cnt + 1)
      (store ++ [mkStoredJob r now (now + RETENTION_MS) todayStr]) hnodup.2 hrest
    simp only [ingestLoop, hany, Bool.false_eq_true, if_false, step]
    simp only [Prod.mk.injEq]
    constructor
    · simp only [List.length_cons]
      omega
    · simp [List.append_assoc]

/-- When every record's id is already present, the ingest loop adds
nothing and leaves the store untouched. -/
theorem ingestLoop_all_present (now : Nat) (todayStr : String) :
    ∀ (R : List RawJobRecord) (k cnt : Nat) (store : List StoredJob),
    (∀ r ∈ R, ∃ s ∈ store, s.id = r.id) →
    ingestLoop (fun _ => false) now todayStr k R cnt store = (cnt, store) := by
  intro R
  induction R with
  | nil => intro k cnt store _; simp [ingestLoop]
  | cons r rest ih =>
    intro k cnt store hpresent
    have hany : store.any (fun s => s.id = r.id) = true := by
      obtain ⟨s, hs, heq⟩ := hpresent r (List.mem_cons_self r rest)
      exact List.any_eq_true.mpr ⟨s, hs, by simpa using heq⟩
    simp only [ingestLoop, hany, if_true]
    exact ih (k + 1) cnt store (fun r' hr' => hpresent r' (List.mem_cons_of_mem r hr'))

/-- addJobsToSystem on fresh, distinct records appends exactly the new
rows and counts them all. -/
theorem addJobsToSystem_fresh (R : List RawJobRecord) (store : List StoredJob)
    (now : Nat) (todayStr : String)
    (hnodup : (R.map (fun r => r.id)).Nodup)
    (hfresh : ∀ r ∈ R, ∀ s ∈ store, s.id ≠ r.id) :
    addJobsToSystem R store now todayStr =
      (R.length, store ++ R.map (fun r => mkStoredJob r now (now + RETENTION_MS) todayStr)) := by
  cases R with
  | nil => simp [addJobsToSystem, addJobsToSystemF]
  | cons r rest =>
    rw [addJobsToSystem, addJobsToSystemF]
    simp only [List.isEmpty_cons, if_false, Bool.false_eq_true]
    rw [ingestLoop_fresh now todayStr (r :: rest) 0 0 store hnodup hfresh]
    simp

/-- A list whose ids are pairwise distinct contains exactly one record
with the id of any of its members. -/
theorem countP_id_eq_one {R : List RawJobRecord} {r : RawJobRecord}
    (hnodup : (R.map (fun x => x.id)).Nodup) (hr : r ∈ R) :
    R.countP (fun x => x.id = r.id) = 1 := by
  induction R with
  | nil => cases hr
  | cons a rest ih =>
    rw [List.map_cons, List.nodup_cons] at hnodup
    rcases List.mem_cons.mp hr with heq | hmem
    · have hzero : rest.countP (fun x => x.id = r.id) = 0 := by
        rw [List.countP_eq_zero]
        intro x hx hcontra
        have hx' : x.id = a.id := heq ▸ (by simpa using hcontra : x.id = r.id)
        exact hnodup.1 (hx' ▸ List.mem_map_of_mem (fun y => y.id) hx)
      have hhead : a.id = r.id := by rw [heq]
      simp [List.countP_cons, hzero, hhead]
    · have hne : ¬(a.id = r.id) := by
        intro hcontra
        have : r.id ∈ rest.map (fun y => y.id) :=
          List.mem_map_of_mem (fun y => y.id) hmem
        exact hnodup.1 (hcontra ▸ this)
      simp [List.countP_cons, hne, ih hnodup.2 hmem]

/-- C1: ingestion is idempotent.  For well-formed record batches (distinct
ids, none already stored) a failure-free first call to addJobsToSystem
reports every record added and stores exactly one row per record, and a
second call with the identical batch adds 0 records and leaves the store
unchanged. -/
theorem ingestion_idempotent_C1 (R : List RawJobRecord) (store : List StoredJob)
    (now now' : Nat) (todayStr todayStr' : String)
    (hnodup : (R.map (fun r => r.id)).Nodup)
    (hfresh : ∀ r ∈ R, ∀ s ∈ store, s.id ≠ r.id) :
    (addJobsToSystem R store now todayStr).1 = R.length ∧
    (∀ r ∈ R,
      ((addJobsToSystem R store now todayStr).2.filter (fun s => s.id = r.id)).length = 1) ∧
    addJobsToSystem R (addJobsToSystem R store now todayStr).2 now' todayStr' =
      (0, (addJobsToSystem R store now todayStr).2) := by
  have hmain := addJobsToSystem_fresh R store now todayStr hnodup hfresh
  refine ⟨by rw [hmain], ?_, ?_⟩
  · intro r hr
    rw [hmain]
    have hstore : store.filter (fun s => s.id = r.id) = [] := by
      rw [List.filter_eq_nil_iff]
      intro s hs hcontra
      exact hfresh r hr s hs (by simpa using hcontra)
    rw [List.filter_append, hstore, List.nil_append, List.filter_map,
      List.length_map, ← List.countP_eq_length_filter]
    have : (fun s : StoredJob => decide (s.id = r.id)) ∘
        (fun x : RawJobRecord => mkStoredJob x now (now + RETENTION_MS) todayStr) =
        fun x : RawJobRecord => decide (x.id = r.id) := by
      funext x
      rfl
    rw [this]
    exact countP_id_eq_one hnodup hr
  · rw [hmain]
    cases R with
    | nil => simp [addJobsToSystem, addJobsToSystemF]
    | cons r rest =>
      rw [addJobsToSystem, addJobsToSystemF]
      simp only [List.isEmpty_cons, if_false, Bool.false_eq_true]
      exact ingestLoop_all_present now' todayStr' (r :: rest) 0 0 _ (by
        intro r' hr'
        exact ⟨mkStoredJob r' now (now + RETENTION_MS) todayStr,
          List.mem_append_right _ (List.mem_map_of_mem _ hr'), rfl⟩)

/-- Witness for C1 at a concrete two-record batch over an empty store. -/
theorem ingestion_idempotent_C1_witness :
    ((([⟨"job-a", none, none, none, none, none, none, none, none, none⟩,
        ⟨"job-b", none, none, none, none, none, none, none, none, none⟩] :
        List RawJobRecord).map (fun r => r.id)).Nodup ∧
      (∀ r ∈ ([⟨"job-a", none, none, none, none, none, none, none, none, none⟩,
        ⟨"job-b", none, none, none, none, none, none, none, none, none⟩] :
        List RawJobRecord), ∀ s ∈ ([] : List StoredJob), s.id ≠ r.id)) ∧
    ((addJobsToSystem
        [⟨"job-a", none, none, none, none, none, none, none, none, none⟩,
         ⟨"job-b", none, none, none, none, none, none, none, none, none⟩] [] 1000 "1/1/2025").1 = 2 ∧
      (∀ r ∈ ([⟨"job-a", none, none, none, none, none, none, none, none, none⟩,
         ⟨"job-b", none, none, none, none, none, none, none, none, none⟩] : List RawJobRecord),
        (((addJobsToSystem
            [⟨"job-a", none, none, none, none, none, none, none, none, none⟩,
             ⟨"job-b", none, none, none, none, none, none, none, none, none⟩] [] 1000
            "1/1/2025").2).filter (fun s => s.id = r.id)).length = 1) ∧
      addJobsToSystem
        [⟨"job-a", none, none, none, none, none, none, none, none, none⟩,
         ⟨"job-b", none, none, none, none, none, none, none, none, none⟩]
        (addJobsToSystem
          [⟨"job-a", none, none, none, none, none, none, none, none, none⟩,
           ⟨"job-b", none, none, none, none, none, none, none, none, none⟩] [] 1000 "1/1/2025").2
        2000 "1/2/2025" =
        (0, (addJobsToSystem
          [⟨"job-a", none, none, none, none, none, none, none, none, none⟩,
           ⟨"job-b", none, none, none, none, none, none, none, none, none⟩] [] 1000
          "1/1/2025").2)) :=
  ⟨⟨by decide, by decide⟩,
    ingestion_idempotent_C1 _ _ 1000 2000 "1/1/2025" "1/2/2025" (by decide) (by decide)⟩

/-- C2 counterexample: a batch of two fresh records where storage throws
on the first record.  Because addJobsToSystem wraps the whole record loop
in one try/catch, the second record is never existence-checked or
inserted (the run ends with 0 added and an empty store), although a
failure-free run of the same batch inserts both — refuting the claim that
the records after a failing one are still processed. -/
theorem ingestion_batch_abort_counterexample_C2 :
    addJobsToSystemF (fun k => k == 0)
      [⟨"job-a", none, none, none, none, none, none, none, none, none⟩,
       ⟨"job-b", none, none, none, none, none, none, none, none, none⟩] [] 1000 "1/1/2025" =
      (0, []) ∧
    (addJobsToSystem
      [⟨"job-a", none, none, none, none, none, none, none, none, none⟩,
       ⟨"job-b", none, none, none, none, none, none, none, none, none⟩] [] 1000 "1/1/2025").1 = 2 := by
  constructor
  · rfl
  · rfl

/-- A storage failure at record index k (the first failure of the run)
makes the ingest loop behave exactly like a failure-free run over the
records before index k: the later records are abandoned. -/
theorem ingestLoop_abort (failsAt : Nat → Bool) (now : Nat) (todayStr : String) :
    ∀ (R : List RawJobRecord) (i k cnt : Nat) (store : List StoredJob),
    k < R.length → failsAt (i + k) = true → (∀ m < k, failsAt (i + m) = false) →
    ingestLoop failsAt now todayStr i R cnt store =
      ingestLoop (fun _ => false) now todayStr i (R.take k) cnt store := by
  intro R
  induction R with
  | nil => intro i k cnt store hk; cases (Nat.not_lt_zero k) hk
  | cons r rest ih =>
    intro i k cnt store hk hfail hbefore
    cases k with
    | zero =>
      have h0 : failsAt i = true := by simpa using hfail
      simp [ingestLoop, h0]
    | succ k' =>
      have h0 : failsAt i = false := by simpa using hbefore 0 (Nat.succ_pos k')
      have hfail' : failsAt (i + 1 + k') = true := by
        have : i + 1 + k' = i + (k' + 1) := by omega
        rw [this]; exact hfail
      have hbefore' : ∀ m < k', failsAt (i + 1 + m) = false := by
        intro m hm
        have : i + 1 + m = i + (m + 1) := by omega
        rw [this]; exact hbefore (m + 1) (by omega)
      have hk' : k' < rest.length := by simpa using hk
      simp only [List.take_succ_cons, ingestLoop, h0, Bool.false_eq_true, if_false]
      by_cases hany : store.any (fun s => s.id = r.id) = true
      · simp only [hany, if_true]
        exact ih (i + 1) k' cnt store hk' hfail' hbefore'
      · simp only [Bool.not_eq_true] at hany
        simp only [hany, Bool.false_eq_true, if_false]
        exact ih (i + 1) k' (cnt + 1) _ hk' hfail' hbefore'

/-- C2 amended: a storage failure while processing one record is caught at
the BATCH level, not the record level: the failing record and every
record after it are abandoned, while the records before the failure stay
inserted and counted, and the accumulated count is returned to the caller
without rethrowing.  Equivalently, a run whose first storage failure hits
record index k behaves exactly like a failure-free run of the first k
records. -/
theorem ingestion_batch_abort_C2 (failsAt : Nat → Bool) (R : List RawJobRecord)
    (store : List StoredJob) (now : Nat) (todayStr : String) (k : Nat)
    (hk : k < R.length) (hfail : failsAt k = true)
    (hbefore : ∀ m < k, failsAt m = false) :
    addJobsToSystemF failsAt R store now todayStr =
      addJobsToSystem (R.take k) store now todayStr := by
  cases R with
  | nil => cases (Nat.not_lt_zero k) hk
  | cons r rest =>
    rw [addJobsToSystemF, addJobsToSystem, addJobsToSystemF]
    simp only [List.isEmpty_cons, Bool.false_eq_true, if_false]
    have habort := ingestLoop_abort failsAt now todayStr (r :: rest) 0 k 0 store hk
      (by simpa using hfail) (by simpa using hbefore)
    rw [habort]
    cases hkt : (r :: rest).take k with
    | nil =>
      have : k = 0 := by
        cases k with
        | zero => rfl
        | succ k' => simp [List.take_succ_cons] at hkt
      subst this
      simp [ingestLoop]
    | cons q qs =>
      have hk0 : k ≠ 0 := by
        intro h0
        subst h0
        simp at hkt
      simp [hk0]

/-- Witness for C2 amended: with the first failure at record index 1, a
three-record batch degenerates to a failure-free run of its first
record. -/
theorem ingestion_batch_abort_C2_witness :
    ((1 : Nat) < ([⟨"job-a", none, none, none, none, none, none, none, none, none⟩,
        ⟨"job-b", none, none, none, none, none, none, none, none, none⟩,
        ⟨"job-c", none, none, none, none, none, none, none, none, none⟩] :
        List RawJobRecord).length ∧
      ((fun k => k == 1) : Nat → Bool) 1 = true ∧
      (∀ m < 1, ((fun k => k == 1) : Nat → Bool) m = false)) ∧
    addJobsToSystemF (fun k => k == 1)
      [⟨"job-a", none, none, none, none, none, none, none, none, none⟩,
       ⟨"job-b", none, none, none, none, none, none, none, none, none⟩,
       ⟨"job-c", none, none, none, none, none, none, none, none, none⟩] [] 1000 "1/1/2025" =
      addJobsToSystem
        (([⟨"job-a", none, none, none, none, none, none, none, none, none⟩,
           ⟨"job-b", none, none, none, none, none, none, none, none, none⟩,
           ⟨"job-c", none, none, none, none, none, none, none, none, none⟩] :
           List RawJobRecord).take 1) [] 1000 "1/1/2025" :=
  ⟨⟨by decide, by decide, by decide⟩,
    ingestion_batch_abort_C2 (fun k => k == 1) _ [] 1000 "1/1/2025" 1
      (by decide) (by decide) (by decide)⟩

/-! Enrichment worker theorems. -/

/-- A fetch whose every attempt yields a too-short description performs
exactly MAX_RETRIES + 1 attempts and returns null. -/
theorem fetch_exhausts_on_short (att : Nat → FetchAttempt)
    (hshort : ∀ i, ∃ d, att i = .ok (some d) ∧ d.length < 50) :
    fetchJobDescription att 0 = (none, MAX_RETRIES + 1) := by
  obtain ⟨d0, h0, l0⟩ := hshort 0
  obtain ⟨d1, h1, l1⟩ := hshort 1
  obtain ⟨d2, h2, l2⟩ := hshort 2
  have n0 : ¬(50 < d0.length) := by omega
  have n1 : ¬(50 < d1.length) := by omega
  have n2 : ¬(50 < d2.length) := by omega
  simp [fetchJobDescription, MAX_RETRIES, fetchGo, h0, h1, h2, n0, n1, n2]

/-- The result loop splits over list append. -/
theorem processJobs_append (fetchRes : StoredJob → Option String) :
    ∀ (l₁ l₂ : List StoredJob) (store : List StoredJob) (e f : Nat),
    processJobs fetchRes (l₁ ++ l₂) store e f =
      processJobs fetchRes l₂ (processJobs fetchRes l₁ store e f).2.2
        (processJobs fetchRes l₁ store e f).1 (processJobs fetchRes l₁ store e f).2.1 := by
  intro l₁
  induction l₁ with
  | nil => intro l₂ store e f; simp [processJobs]
  | cons j rest ih =>
    intro l₂ store e f
    rw [List.cons_append]
    cases hres : fetchRes j with
    | some d => simp only [processJobs, hres]; exact ih l₂ _ _ _
    | none => simp only [processJobs, hres]; exact ih l₂ _ _ _

/-- Replaying the batch trace equals one pass of the result loop over the
whole candidate list, provided the loop fuel covers the list. -/
theorem runBatches_batchScheduleGo (fetchRes : StoredJob → Option String) :
    ∀ (fuel : Nat) (jobs : List StoredJob) (store : List StoredJob) (e f : Nat),
    jobs.length ≤ fuel →
    runBatches fetchRes (batchScheduleGo fuel jobs) store e f =
      processJobs fetchRes jobs store e f := by
  intro fuel
  induction fuel with
  | zero =>
    intro jobs store e f hle
    have : jobs = [] := List.length_eq_zero.mp (Nat.le_zero.mp hle)
    subst this
    simp [batchScheduleGo, runBatches, processJobs]
  | succ fuel ih =>
    intro jobs store e f hle
    cases jobs with
    | nil => simp [batchScheduleGo, runBatches, processJobs]
    | cons j rest =>
      by_cases hlen : (j :: rest).length ≤ BATCH_SIZE
      · have htake : (j :: rest).take BATCH_SIZE = j :: rest := List.take_of_length_le hlen
        simp only [batchScheduleGo, hlen, if_true, htake]
        cases hp : processJobs fetchRes (j :: rest) store e f with
        | mk e' p => simp [runBatches, hp]
      · simp only [batchScheduleGo, hlen, if_false]
        cases hp : processJobs fetchRes ((j :: rest).take BATCH_SIZE) store e f with
        | mk e' p =>
          cases p with
          | mk f' store' =>
            have hB : BATCH_SIZE = 5 := rfl
            have hdrop : ((j :: rest).drop BATCH_SIZE).length ≤ fuel := by
              rw [List.length_drop]
              simp only [Nat.not_le] at hlen
              omega
            simp only [runBatches, hp]
            rw [ih ((j :: rest).drop BATCH_SIZE) store' e' f' hdrop]
            have hsplit := processJobs_append fetchRes ((j :: rest).take BATCH_SIZE)
              ((j :: rest).drop BATCH_SIZE) store e f
            rw [List.take_append_drop, hp] at hsplit
            rw [hsplit]

/-- The failed counter of the result loop counts exactly the jobs whose
settled fetch value is null. -/
theorem processJobs_failed_count (fetchRes : StoredJob → Option String) :
    ∀ (batch : List StoredJob) (store : List StoredJob) (e f : Nat),
    (processJobs fetchRes batch store e f).2.1 =
      f + batch.countP (fun x => (fetchRes x).isNone) := by
  intro batch
  induction batch with
  | nil => intro store e f; simp [processJobs]
  | cons j rest ih =>
    intro store e f
    cases hres : fetchRes j with
    | some d => simp [processJobs, hres, ih, List.countP_cons]
    | none =>
      simp [processJobs, hres, ih, List.countP_cons]
      omega

/-- A description update keyed on a different id leaves every row of a
given id untouched. -/
theorem updateJobDescription_filter_ne (store : List StoredJob) (jobId desc tid : String)
    (hne : jobId ≠ tid) :
    (updateJobDescription store jobId desc).filter (fun s => s.id = tid) =
      store.filter (fun s => s.id = tid) := by
  induction store with
  | nil => rfl
  | cons j rest ih =>
    by_cases hj : j.id = jobId
    · have hjt : ¬(j.id = tid) := by rw [hj]; exact hne
      have hjt' : ¬(({ j with description := some desc } : StoredJob).id = tid) := hjt
      simp only [updateJobDescription, List.map_cons, hj, if_true, List.filter_cons] at *
      simp [hjt, hjt', ih]
    · simp only [updateJobDescription, List.map_cons, hj, if_false, List.filter_cons]
      by_cases hjt : j.id = tid
      · simp [hjt, updateJobDescription] at ih ⊢
        exact ih
      · simp [hjt, updateJobDescription] at ih ⊢
        exact ih

/-- If no job of the batch with a successful fetch carries the target id,
the result loop leaves every row of that id untouched. -/
theorem processJobs_filter_ne (fetchRes : StoredJob → Option String) (tid : String) :
    ∀ (batch : List StoredJob) (store : List StoredJob) (e f : Nat),
    (∀ x ∈ batch, (fetchRes x).isSome = true → x.id ≠ tid) →
    (processJobs fetchRes batch store e f).2.2.filter (fun s => s.id = tid) =
      store.filter (fun s => s.id = tid) := by
  intro batch
  induction batch with
  | nil => intro store e f _; rfl
  | cons j rest ih =>
    intro store e f hno
    cases hres : fetchRes j with
    | some d =>
      have hne : j.id ≠ tid :=
        hno j (List.mem_cons_self j rest) (by simp [hres])
      simp only [processJobs, hres]
      rw [ih _ _ _ (fun x hx => hno x (List.mem_cons_of_mem j hx)),
        updateJobDescription_filter_ne store j.id d tid hne]
    | none =>
      simp only [processJobs, hres]
      exact ih _ _ _ (fun x hx => hno x (List.mem_cons_of_mem j hx))

/-- Membership in the enrichment candidate list implies membership in the
store. -/
theorem mem_store_of_mem_candidates {store : List StoredJob} {j : StoredJob}
    (hj : j ∈ getJobsNeedingEnrichment store) : j ∈ store := by
  have h1 := List.mem_of_mem_take hj
  rw [mem_sortByAddedDesc] at h1
  exact (List.mem_filter.mp h1).1

/-- C3: a job whose every fetch attempt yields a description shorter than
the 50-character viability floor is fetched exactly MAX_RETRIES + 1 = 3
times; the run counts it in the failed bucket of its {total, enriched,
failed} summary, and the job's stored row — in particular its
description — is never written. -/
theorem enrichment_retry_bound_C3 (att : String → Nat → FetchAttempt)
    (store : List StoredJob) (j : StoredJob)
    (hnodup : (store.map (fun s => s.id)).Nodup)
    (hj : j ∈ getJobsNeedingEnrichment store)
    (hshort : ∀ i, ∃ d, att j.id i = .ok (some d) ∧ d.length < 50) :
    (fetchJobDescription (att j.id) 0).2 = MAX_RETRIES + 1 ∧
    (fetchForJob att j).isNone = true ∧
    (∃ summary store',
      enrichJobDescriptionsRun false false att store = .ok (summary, store') ∧
      summary.total = (getJobsNeedingEnrichment store).length ∧
      summary.failed =
        (getJobsNeedingEnrichment store).countP (fun x => (fetchForJob att x).isNone) ∧
      store'.filter (fun s => s.id = j.id) = store.filter (fun s => s.id = j.id)) := by
  have hfetch := fetch_exhausts_on_short (att j.id) hshort
  have hnone : (fetchForJob att j).isNone = true := by
    rw [fetchForJob, hfetch]
    rfl
  refine ⟨by rw [hfetch], hnone, ?_⟩
  have hne : ¬(getJobsNeedingEnrichment store).isEmpty = true := by
    rw [List.isEmpty_iff]
    intro hempty
    rw [hempty] at hj
    cases hj
  rw [enrichJobDescriptionsRun]
  simp only [if_neg hne, Bool.false_eq_true, if_false]
  rw [batchSchedule,
    runBatches_batchScheduleGo (fetchForJob att) (getJobsNeedingEnrichment store).length
      (getJobsNeedingEnrichment store) store 0 0 (Nat.le_refl _)]
  refine ⟨_, _, rfl, rfl, ?_, ?_⟩
  · rw [processJobs_failed_count]
    simp
  · refine processJobs_filter_ne (fetchForJob att) j.id (getJobsNeedingEnrichment store)
      store 0 0 ?_
    intro x hx hsome hxid
    have hxj : x = j :=
      List.inj_on_of_nodup_map hnodup (mem_store_of_mem_candidates hx)
        (mem_store_of_mem_candidates hj) hxid
    rw [hxj] at hsome
    rw [Option.isNone_iff_eq_none.mp hnone] at hsome
    cases hsome

/-- Witness for C3: one stored job with a usable url and no description,
whose fetch always yields a 5-character description. -/
theorem enrichment_retry_bound_C3_witness :
    ((([⟨"job-a", "t", "c", "l", "ty", "sal", "p", none, "http://example.com/a",
        "LinkedIn", 7, 999⟩] : List StoredJob).map (fun s => s.id)).Nodup ∧
      (⟨"job-a", "t", "c", "l", "ty", "sal", "p", none, "http://example.com/a",
        "LinkedIn", 7, 999⟩ : StoredJob) ∈
        getJobsNeedingEnrichment
          [⟨"job-a", "t", "c", "l", "ty", "sal", "p", none, "http://example.com/a",
            "LinkedIn", 7, 999⟩]) ∧
    ((fetchJobDescription ((fun _ _ => .ok (some "short")) "job-a") 0).2 = MAX_RETRIES + 1 ∧
      (fetchForJob (fun _ _ => .ok (some "short"))
        ⟨"job-a", "t", "c", "l", "ty", "sal", "p", none, "http://example.com/a",
          "LinkedIn", 7, 999⟩).isNone = true ∧
      (∃ summary store',
        enrichJobDescriptionsRun false false (fun _ _ => .ok (some "short"))
          [⟨"job-a", "t", "c", "l", "ty", "sal", "p", none, "http://example.com/a",
            "LinkedIn", 7, 999⟩] = .ok (summary, store') ∧
        summary.total =
          (getJobsNeedingEnrichment
            [⟨"job-a", "t", "c", "l", "ty", "sal", "p", none, "http://example.com/a",
              "LinkedIn", 7, 999⟩]).length ∧
        summary.failed =
          (getJobsNeedingEnrichment
            [⟨"job-a", "t", "c", "l", "ty", "sal", "p", none, "http://example.com/a",
              "LinkedIn", 7, 999⟩]).countP
            (fun x => (fetchForJob (fun _ _ => .ok (some "short")) x).isNone) ∧
        store'.filter (fun s => s.id = "job-a") =
          ([⟨"job-a", "t", "c", "l", "ty", "sal", "p", none, "http://example.com/a",
              "LinkedIn", 7, 999⟩] : List StoredJob).filter (fun s => s.id = "job-a"))) :=
  ⟨⟨by decide, by decide⟩,
    enrichment_retry_bound_C3 (fun _ _ => .ok (some "short")) _ _ (by decide) (by decide)
      (fun i => ⟨"short", rfl, by decide⟩)⟩

/-- C4: for any 12 candidate jobs with BATCH_SIZE = 5, the worker issues
exactly 3 batches of sizes 5, 5, 2 in list order, with the cool-down
delay inserted after the first and second batch and never after the
last. -/
theorem batch_cadence_C4 (j₁ j₂ j₃ j₄ j₅ j₆ j₇ j₈ j₉ j₁₀ j₁₁ j₁₂ : StoredJob) :
    batchSchedule [j₁, j₂, j₃, j₄, j₅, j₆, j₇, j₈, j₉, j₁₀, j₁₁, j₁₂] =
      [.run [j₁, j₂, j₃, j₄, j₅], .coolDown,
       .run [j₆, j₇, j₈, j₉, j₁₀], .coolDown,
       .run [j₁₁, j₁₂]] := rfl

/-- C9: a stored row whose expires_at lies before the time of the read is
absent from every getJobs result, whatever the filters, although the row
itself still sits in the store (getJobs is a pure SELECT). -/
theorem expiry_filtering_C9 (store : List StoredJob) (now : Nat) (filters : JobFilters)
    (j : StoredJob) (hmem : j ∈ store) (hexpired : j.expiresAt < now) :
    j ∉ getJobs store now filters := by
  intro hin
  rw [getJobs, mem_sortByAddedDesc] at hin
  have hwhere := (List.mem_filter.mp hin).2
  rw [getJobsWhere] at hwhere
  simp only [Bool.and_eq_true, decide_eq_true_eq] at hwhere
  omega

/-- Witness for C9: an expired row in a one-row store is invisible to an
unfiltered read. -/
theorem expiry_filtering_C9_witness :
    ((⟨"job-a", "t", "c", "l", "ty", "sal", "p", none, "http://example.com/a",
        "LinkedIn", 7, 50⟩ : StoredJob) ∈
      ([⟨"job-a", "t", "c", "l", "ty", "sal", "p", none, "http://example.com/a",
        "LinkedIn", 7, 50⟩] : List StoredJob) ∧
      (⟨"job-a", "t", "c", "l", "ty", "sal", "p", none, "http://example.com/a",
        "LinkedIn", 7, 50⟩ : StoredJob).expiresAt < 100) ∧
    (⟨"job-a", "t", "c", "l", "ty", "sal", "p", none, "http://example.com/a",
        "LinkedIn", 7, 50⟩ : StoredJob) ∉
      getJobs
        [⟨"job-a", "t", "c", "l", "ty", "sal", "p", none, "http://example.com/a",
          "LinkedIn", 7, 50⟩] 100 ⟨none, none⟩ :=
  ⟨⟨by decide, by decide⟩,
    expiry_filtering_C9 _ 100 ⟨none, none⟩ _ (by decide) (by decide)⟩

/-- C10 counterexample: with the Job Store unreachable (candidate
selection fails) over a store that does hold an enrichment candidate, the
run does NOT propagate any error: it returns the perfectly normal summary
{total := 0, enriched := 0, failed := 0} — the failure is swallowed
inside getJobsNeedingEnrichment, refuting the claim that a store-
unreachable failure is propagated to the caller. -/
theorem fatal_failure_counterexample_C10 :
    enrichJobDescriptionsRun true false (fun _ _ => .ok (some (String.mk (List.replicate 60 'a'))))
      [⟨"job-a", "t", "c", "l", "ty", "sal", "p", none, "http://example.com/a",
        "LinkedIn", 7, 999⟩] =
      .ok (⟨0, 0, 0⟩,
        [⟨"job-a", "t", "c", "l", "ty", "sal", "p", none, "http://example.com/a",
          "LinkedIn", 7, 999⟩]) ∧
    (getJobsNeedingEnrichment
      [⟨"job-a", "t", "c", "l", "ty", "sal", "p", none, "http://example.com/a",
        "LinkedIn", 7, 999⟩]).length = 1 := by
  constructor
  · rfl
  · rfl

/-- C10 amended: only the browser-launch failure is propagated.  If the
browser cannot be launched while at least one candidate was selected, the
run surfaces the error to its caller with nothing processed; but if the
Job Store is unreachable, candidate selection catches the error itself
and returns no candidates, so the run swallows the failure and returns
the normal empty summary {total := 0, enriched := 0, failed := 0} with
the store untouched. -/
theorem fatal_failure_C10 (att : String → Nat → FetchAttempt) (store : List StoredJob) :
    (getJobsNeedingEnrichment store ≠ [] →
      enrichJobDescriptionsRun false true att store = .error ()) ∧
    (∀ launchFail : Bool,
      enrichJobDescriptionsRun true launchFail att store = .ok (⟨0, 0, 0⟩, store)) := by
  constructor
  · intro hne
    rw [enrichJobDescriptionsRun]
    have : ¬(getJobsNeedingEnrichment store).isEmpty = true := by
      rw [List.isEmpty_iff]
      exact hne
    simp [this]
  · intro launchFail
    rw [enrichJobDescriptionsRun]
    simp

/-- Witness for C10 amended at a one-candidate store. -/
theorem fatal_failure_C10_witness :
    (getJobsNeedingEnrichment
      [⟨"job-a", "t", "c", "l", "ty", "sal", "p", none, "http://example.com/a",
        "LinkedIn", 7, 999⟩] ≠ [] →
      enrichJobDescriptionsRun false true (fun _ _ => .err)
        [⟨"job-a", "t", "c", "l", "ty", "sal", "p", none, "http://example.com/a",
          "LinkedIn", 7, 999⟩] = .error ()) ∧
    (∀ launchFail : Bool,
      enrichJobDescriptionsRun true launchFail (fun _ _ => .err)
        [⟨"job-a", "t", "c", "l", "ty", "sal", "p", none, "http://example.com/a",
          "LinkedIn", 7, 999⟩] =
        .ok (⟨0, 0, 0⟩,
          [⟨"job-a", "t", "c", "l", "ty", "sal", "p", none, "http://example.com/a",
            "LinkedIn", 7, 999⟩])) :=
  fatal_failure_C10 (fun _ _ => .err) _

/-! Crawl scheduler theorems. -/

/-- Tick composition for the crawl runner. -/
theorem runTicks_add (env : CrawlEnv) :
    ∀ (m n : Nat) (s : CrawlState),
    runTicks env s (m + n) = runTicks env (runTicks env s m) n := by
  intro m
  induction m with
  | zero => intro n s; rw [Nat.zero_add]; rfl
  | succ m ih =>
    intro n s
    have harith : m + 1 + n = (m + n) + 1 := by omega
    rw [harith]
    show runTicks env (stepCrawl env s) (m + n) = _
    rw [ih n (stepCrawl env s)]
    rfl

/-- The inner keyword loop: from the head of scrapeNextKeyword at keyword
index kwi with rem keywords left, an uninterrupted run of 3 * rem + 1
ticks issues exactly the searches for the remaining keywords of the
current location, in keyword order, and hands control back to
scrapeNextLocation for the next location. -/
theorem crawl_kw_loop (env : CrawlEnv) :
    ∀ (rem loci kwi : Nat) (jobs : List String) (v : List (String × String)),
    kwi + rem = env.keywords.length →
    ∃ js, runTicks env ⟨true, loci, kwi, jobs, v, .kw⟩ (3 * rem + 1) =
      ⟨true, loci + 1, env.keywords.length, js,
        v ++ ((env.keywords.drop kwi).map
          (fun k => (env.locations.getD loci "", k))), .loc⟩ := by
  intro rem
  induction rem with
  | zero =>
    intro loci kwi jobs v hlen
    refine ⟨jobs, ?_⟩
    have hkwi : env.keywords.length ≤ kwi := by omega
    show runTicks env (stepCrawl env ⟨true, loci, kwi, jobs, v, .kw⟩) 0 = _
    simp only [stepCrawl, Bool.not_true, Bool.false_eq_true, if_false, hkwi, if_true,
      runTicks]
    have hdrop : env.keywords.drop kwi = [] := by
      apply List.drop_eq_nil_of_le
      omega
    rw [hdrop]
    have hkwieq : kwi = env.keywords.length := by omega
    simp [hkwieq]
  | succ rem ih =>
    intro loci kwi jobs v hlen
    have hkwi : kwi < env.keywords.length := by omega
    have harith : 3 * (rem + 1) + 1 = 1 + 1 + 1 + (3 * rem + 1) := by omega
    rw [harith, runTicks_add env (1 + 1 + 1) (3 * rem + 1)]
    have hnotle : ¬(env.keywords.length ≤ kwi) := by omega
    have hstep3 :
        runTicks env ⟨true, loci, kwi, jobs, v, .kw⟩ (1 + 1 + 1) =
          ⟨true, loci, kwi + 1, jobs ++ env.results loci kwi,
            v ++ [(env.locations.getD loci "", env.keywords.getD kwi "")], .kw⟩ := by
      show runTicks env (stepCrawl env _) (1 + 1) = _
      simp only [stepCrawl, Bool.not_true, Bool.false_eq_true, if_false, hnotle, if_true]
      rfl
    rw [hstep3]
    obtain ⟨js, hrest⟩ := ih loci (kwi + 1) (jobs ++ env.results loci kwi)
      (v ++ [(env.locations.getD loci "", env.keywords.getD kwi "")]) (by omega)
    refine ⟨js, ?_⟩
    rw [hrest]
    have hdropcons : env.keywords.drop kwi =
        env.keywords.getD kwi "" :: env.keywords.drop (kwi + 1) := by
      rw [List.getD_eq_getElem env.keywords "" hkwi]
      exact List.drop_eq_getElem_cons hkwi
    rw [hdropcons]
    simp [List.append_assoc]

/-- The outer location loop: from the head of scrapeNextLocation at
location index loci, an uninterrupted run visits every remaining
(location, keyword) pair in outer-location inner-keyword order and ends
idle with isRunning = false. -/
theorem crawl_loc_loop (env : CrawlEnv) :
    ∀ (remL loci kwi : Nat) (jobs : List String) (v : List (String × String)),
    loci + remL = env.locations.length →
    ∃ js kwi', runTicks env ⟨true, loci, kwi, jobs, v, .loc⟩
        (remL * (3 * env.keywords.length + 2) + 1) =
      ⟨false, env.locations.length, kwi', js,
        v ++ ((env.locations.drop loci).flatMap
          (fun l => env.keywords.map (fun k => (l, k)))), .idle⟩ := by
  intro remL
  induction remL with
  | zero =>
    intro loci kwi jobs v hlen
    refine ⟨jobs, kwi, ?_⟩
    have hfuel : 0 * (3 * env.keywords.length + 2) + 1 = 1 := by ring
    rw [hfuel]
    have hloci : env.locations.length ≤ loci := by omega
    have hdrop : env.locations.drop loci = [] := by
      apply List.drop_eq_nil_of_le
      omega
    have hlocieq : loci = env.locations.length := by omega
    show stepCrawl env ⟨true, loci, kwi, jobs, v, .loc⟩ = _
    simp [stepCrawl, hloci, hdrop, hlocieq]
  | succ remL ih =>
    intro loci kwi jobs v hlen
    have hloci : loci < env.locations.length := by omega
    have hnotle : ¬(env.locations.length ≤ loci) := by omega
    have harith : (remL + 1) * (3 * env.keywords.length + 2) + 1 =
        (1 + (3 * env.keywords.length + 1)) + (remL * (3 * env.keywords.length + 2) + 1) := by
      ring
    rw [harith, runTicks_add]
    have hstep1 : runTicks env ⟨true, loci, kwi, jobs, v, .loc⟩ 1 =
        ⟨true, loci, 0, jobs, v, .kw⟩ := by
      show stepCrawl env ⟨true, loci, kwi, jobs, v, .loc⟩ = _
      simp [stepCrawl, hnotle]
    rw [runTicks_add env 1 (3 * env.keywords.length + 1), hstep1]
    obtain ⟨js, hkw⟩ := crawl_kw_loop env env.keywords.length loci 0 jobs v (by omega)
    rw [hkw]
    obtain ⟨js', kwi', hrest⟩ := ih (loci + 1) env.keywords.length js
      (v ++ (env.keywords.drop 0).map (fun k => (env.locations.getD loci "", k)))
      (by omega)
    refine ⟨js', kwi', ?_⟩
    rw [hrest]
    have hdropcons : env.locations.drop loci =
        env.locations.getD loci "" :: env.locations.drop (loci + 1) := by
      rw [List.getD_eq_getElem env.locations "" hloci]
      exact List.drop_eq_getElem_cons hloci
    rw [hdropcons, List.flatMap_cons]
    simp [List.append_assoc]

/-- C5: for every crawl over non-empty location and keyword lists, an
uninterrupted run of the scheduler terminates and visits exactly the
(location, keyword) pairs in outer-loop-over-locations,
inner-loop-over-keywords order — for locations [A,B] and keywords [x,y]
that is (A,x),(A,y),(B,x),(B,y).  The machine is single-stepped by
construction (one shared browser tab), so no two pairs are ever visited
concurrently. -/
theorem crawl_traversal_order_C5 (env : CrawlEnv)
    (hloc : env.locations ≠ []) (hkw : env.keywords ≠ []) :
    (runTicks env startState
      (env.locations.length * (3 * env.keywords.length + 2) + 1)).phase = .idle ∧
    (runTicks env startState
      (env.locations.length * (3 * env.keywords.length + 2) + 1)).visited =
      env.locations.flatMap (fun l => env.keywords.map (fun k => (l, k))) := by
  obtain ⟨js, kwi', hrun⟩ := crawl_loc_loop env env.locations.length 0 0 [] [] (by omega)
  rw [startState, hrun]
  exact ⟨rfl, by simp⟩

/-- Witness for C5 at locations [A,B], keywords [x,y]. -/
theorem crawl_traversal_order_C5_witness :
    ((["A", "B"] : List String) ≠ [] ∧ (["x", "y"] : List String) ≠ []) ∧
    ((runTicks ⟨["A", "B"], ["x", "y"], fun _ _ => ["job"]⟩ startState
        (2 * (3 * 2 + 2) + 1)).phase = .idle ∧
      (runTicks ⟨["A", "B"], ["x", "y"], fun _ _ => ["job"]⟩ startState
        (2 * (3 * 2 + 2) + 1)).visited =
        (["A", "B"] : List String).flatMap
          (fun l => (["x", "y"] : List String).map (fun k => (l, k)))) :=
  ⟨⟨by decide, by decide⟩,
    crawl_traversal_order_C5 ⟨["A", "B"], ["x", "y"], fun _ _ => ["job"]⟩
      (by decide) (by decide)⟩

/-- C6 counterexample: locations [A,B], keywords [x,y], every search
returning one job.  Two ticks issue the navigation for (A,x) and leave
the settle timer pending; the stop button is then clicked while that very
step is in flight.  However many further ticks run, the collected job
list stays EMPTY: the already-issued search's results are never appended,
because the settle callback re-checks isRunning before scraping — refuting
the claim that the in-flight step finishes and its results are
appended. -/
theorem stop_cooperative_counterexample_C6 :
    (evolveCrawl ⟨["A", "B"], ["x", "y"], fun _ _ => ["job"]⟩ startState
      [.tick, .tick, .stop, .tick, .tick, .tick, .tick]).visited = [("A", "x")] ∧
    (evolveCrawl ⟨["A", "B"], ["x", "y"], fun _ _ => ["job"]⟩ startState
      [.tick, .tick, .stop, .tick, .tick, .tick, .tick]).allJobs = [] := by
  constructor
  · rfl
  · rfl

/-- C6 amended: stop is cooperative only between suspension points.  Once
isRunning is false — in particular right after a stop click, wherever it
lands — no further search is ever issued (the visited trace is frozen)
and the collected results are exactly those already appended before the
stop: they remain available unchanged, but an in-flight step that had not
yet scraped is abandoned at its next isRunning check rather than
finishing, so its results are never appended. -/
theorem stop_cooperative_C6 (env : CrawlEnv) :
    ∀ (evs : List CrawlEv) (s : CrawlState), s.isRunning = false →
    (evolveCrawl env s evs).visited = s.visited ∧
    (evolveCrawl env s evs).allJobs = s.allJobs ∧
    (evolveCrawl env s evs).isRunning = false := by
  intro evs
  induction evs with
  | nil => intro s hs; exact ⟨rfl, rfl, hs⟩
  | cons ev rest ih =>
    intro s hs
    cases ev with
    | tick =>
      have hv : (stepCrawl env s).visited = s.visited := by
        cases hphase : s.phase <;> simp [stepCrawl, hphase, hs]
      have hj : (stepCrawl env s).allJobs = s.allJobs := by
        cases hphase : s.phase <;> simp [stepCrawl, hphase, hs]
      have hr : (stepCrawl env s).isRunning = false := by
        cases hphase : s.phase <;> simp [stepCrawl, hphase, hs]
      obtain ⟨h1, h2, h3⟩ := ih (stepCrawl env s) hr
      exact ⟨h1.trans hv, h2.trans hj, h3⟩
    | stop =>
      exact ih (stopCrawl s) rfl

/-- Witness for C6 amended: a stopped state with one collected job and
one visited search is frozen by any further occurrences. -/
theorem stop_cooperative_C6_witness :
    (⟨false, 0, 1, ["job"], [("A", "x")], .settle⟩ : CrawlState).isRunning = false ∧
    ((evolveCrawl ⟨["A", "B"], ["x", "y"], fun _ _ => ["job"]⟩
        ⟨false, 0, 1, ["job"], [("A", "x")], .settle⟩
        [.tick, .tick, .stop, .tick]).visited = [("A", "x")] ∧
      (evolveCrawl ⟨["A", "B"], ["x", "y"], fun _ _ => ["job"]⟩
        ⟨false, 0, 1, ["job"], [("A", "x")], .settle⟩
        [.tick, .tick, .stop, .tick]).allJobs = ["job"] ∧
      (evolveCrawl ⟨["A", "B"], ["x", "y"], fun _ _ => ["job"]⟩
        ⟨false, 0, 1, ["job"], [("A", "x")], .settle⟩
        [.tick, .tick, .stop, .tick]).isRunning = false) :=
  ⟨rfl, stop_cooperative_C6 ⟨["A", "B"], ["x", "y"], fun _ _ => ["job"]⟩
    [.tick, .tick, .stop, .tick] ⟨false, 0, 1, ["job"], [("A", "x")], .settle⟩ rfl⟩

/-! Field extractor theorems. -/

/-- C7: on the span text "$101K/yr - $120.4K/yr · 401k", the salary
cascade yields exactly "$101K/yr - $120.4K/yr": the span tier keeps the
whole text because the regex matches, and the final cleanup re-applies
the regex whose first match stops before the separator and benefits text;
the raw first regex match on the text is that same string. -/
theorem salary_extraction_C7 :
    linkedInSalary none ["$101K/yr - $120.4K/yr · 401k"] [] = "$101K/yr - $120.4K/yr" ∧
    salaryMatchStr "$101K/yr - $120.4K/yr · 401k" = some "$101K/yr - $120.4K/yr" := by
  constructor
  · rfl
  · rfl

/-- C8: selector cascades short-circuit.  (1) Per-field: whenever every
selector before sel misses and sel matches with value v, the extractor
returns v whatever any later selector would return.  (2) Job cards:
whenever every selector before sel yields no cards and sel yields at
least one, the card set is exactly sel's, whatever later selectors would
yield.  (3) Never merged: the card result always equals the match set of
a single selector of the list, or is empty. -/
theorem selector_cascade_C8 :
    (∀ (α : Type) (q : String → Option α) (pre : List String) (sel : String)
      (rest : List String) (v : α),
      (∀ s ∈ pre, q s = none) → q sel = some v →
      firstSelectorMatch q (pre ++ sel :: rest) = some v) ∧
    (∀ (κ : Type) (qAll : String → List κ) (pre : List String) (sel : String)
      (rest : List String),
      (∀ s ∈ pre, qAll s = []) → qAll sel ≠ [] →
      selectJobCards qAll (pre ++ sel :: rest) = qAll sel) ∧
    (∀ (κ : Type) (qAll : String → List κ) (sels : List String),
      (∃ sel ∈ sels, selectJobCards qAll sels = qAll sel ∧ qAll sel ≠ []) ∨
        selectJobCards qAll sels = []) := by
  refine ⟨?_, ?_, ?_⟩
  · intro α q pre
    induction pre with
    | nil =>
      intro sel rest v _ hsel
      simp [firstSelectorMatch, hsel]
    | cons p ps ih =>
      intro sel rest v hmiss hsel
      have hp : q p = none := hmiss p (List.mem_cons_self p ps)
      rw [List.cons_append]
      simp only [firstSelectorMatch, hp]
      exact ih sel rest v (fun s hs => hmiss s (List.mem_cons_of_mem p hs)) hsel
  · intro κ qAll pre
    induction pre with
    | nil =>
      intro sel rest _ hsel
      have hpos : 0 < (qAll sel).length := List.length_pos.mpr hsel
      simp [selectJobCards, hpos]
    | cons p ps ih =>
      intro sel rest hmiss hsel
      have hp : qAll p = [] := hmiss p (List.mem_cons_self p ps)
      rw [List.cons_append]
      simp only [selectJobCards, hp, List.length_nil, Nat.lt_irrefl, if_false]
      exact ih sel rest (fun s hs => hmiss s (List.mem_cons_of_mem p hs)) hsel
  · intro κ qAll sels
    induction sels with
    | nil => right; rfl
    | cons sel rest ih =>
      by_cases hsel : qAll sel = []
      · have hlen : ¬(0 < (qAll sel).length) := by
          rw [hsel]
          simp
        rcases ih with ⟨s, hs, heq, hne⟩ | hempty
        · left
          refine ⟨s, List.mem_cons_of_mem sel hs, ?_, hne⟩
          simp only [selectJobCards, hlen, if_false]
          exact heq
        · right
          simp only [selectJobCards, hlen, if_false]
          exact hempty
      · left
        refine ⟨sel, List.mem_cons_self sel rest, ?_, hsel⟩
        have hpos : 0 < (qAll sel).length := List.length_pos.mpr hsel
        simp [selectJobCards, hpos]

/-- Witness for C8: a two-tier cascade where tier 1 and tier 2 both
match; the field value and the card set both come from tier 1. -/
theorem selector_cascade_C8_witness :
    ((∀ s ∈ ([] : List String),
        (fun sel => if sel = "t1" then some "v1"
          else if sel = "t2" then some "v2" else (none : Option String)) s = none) ∧
      (fun sel => if sel = "t1" then some "v1"
        else if sel = "t2" then some "v2" else (none : Option String)) "t1" = some "v1" ∧
      (∀ s ∈ ([] : List String),
        (fun sel => if sel = "c1" then ["cardA"]
          else if sel = "c2" then ["cardB", "cardC"] else ([] : List String)) s = []) ∧
      (fun sel => if sel = "c1" then ["cardA"]
        else if sel = "c2" then ["cardB", "cardC"] else ([] : List String)) "c1" ≠ []) ∧
    (firstSelectorMatch
        (fun sel => if sel = "t1" then some "v1"
          else if sel = "t2" then some "v2" else (none : Option String))
        ([] ++ "t1" :: ["t2"]) = some "v1" ∧
      selectJobCards
        (fun sel => if sel = "c1" then ["cardA"]
          else if sel = "c2" then ["cardB", "cardC"] else ([] : List String))
        ([] ++ "c1" :: ["c2"]) = ["cardA"]) :=
  ⟨⟨by decide, by decide, by decide, by decide⟩,
    selector_cascade_C8.1 String
      (fun sel => if sel = "t1" then some "v1"
        else if sel = "t2" then some "v2" else (none : Option String))
      [] "t1" ["t2"] "v1" (by decide) (by decide),
    selector_cascade_C8.2.1 String
      (fun sel => if sel = "c1" then ["cardA"]
        else if sel = "c2" then ["cardB", "cardC"] else ([] : List String))
      [] "c1" ["c2"] (by decide) (by decide)⟩

end ForHire
